import Mathlib

/-!
# noisy-neighbor-nozzle: accumulator configuration and nozzle web routing

A shallow embedding of

* `cmd/accumulator/app/config.go` (`Config`, `LoadConfig`), and
* `nozzle/internal/web/server.go` (`RateStore`, the route table of `NewServer`),

together with the properties of these programs.

Conventions.

* Go's `int` / `int64` values are mathematical integers (`Int`); the places
  where the 64-bit range matters are made explicit (`wrapInt64`, `maxInt64`).
* `log.Fatalf` ends the process, and a runtime panic unwinds it: `LoadConfig`
  therefore returns an `Outcome`, which is a `Config` only on the normal path.
* Library code that the repository calls (go-envstruct, the Go runtime's
  `makeslice`, gorilla/mux) is modelled by its contract.
-/

namespace app

/-- Go's `*tls.Config`, of which the accumulator sets `InsecureSkipVerify`. -/
structure TLSConfig where
  InsecureSkipVerify : Bool
  deriving DecidableEq, Repr

/-- The `io.Writer` values that `LoadConfig` stores in `LogWriter`. -/
inductive Writer where
  | nil
  | Stdout
  | Discard
  deriving DecidableEq, Repr

/-- Config stores configuration data for the accumulator (`config.go`, 15-39).
`time.Duration` is a number of nanoseconds; a nil `*tls.Config` is `none`. -/
structure Config where
  UAAAddr : String
  ClientID : String
  ClientSecret : String
  NozzleAddrs : List String
  Port : Nat
  SkipCertVerify : Bool
  RateInterval : Int
  VCapApplication : String
  NozzleCount : Int
  NozzleAppGUID : String
  LogWriter : Writer
  MinLogLevel : String
  TLSConfig : Option TLSConfig
  deriving DecidableEq, Repr

/-- Go's `time.Minute`, in nanoseconds. -/
def timeMinute : Int := 60 * 1000000000

/-- Go's `time.Second`, in nanoseconds. -/
def timeSecond : Int := 1000000000

/-- The zero value of `Config`. -/
def zeroConfig : Config :=
  { UAAAddr := "", ClientID := "", ClientSecret := "", NozzleAddrs := [],
    Port := 0, SkipCertVerify := false, RateInterval := 0,
    VCapApplication := "", NozzleCount := 0, NozzleAppGUID := "",
    LogWriter := Writer.nil, MinLogLevel := "", TLSConfig := none }

/-- The composite literal of `config.go`, 43-48: the defaults assigned before
the environment is loaded. -/
def defaultConfig : Config :=
  { zeroConfig with
    SkipCertVerify := false
    RateInterval := timeMinute
    LogWriter := Writer.Stdout
    MinLogLevel := "info" }

/-- How a call of `LoadConfig` ends: `log.Fatalf` (process exit with the
message), a runtime panic, or a normal return. -/
inductive Outcome where
  | fatal (msg : String)
  | panic (msg : String)
  | ok (cfg : Config)
  deriving DecidableEq, Repr

/-- The fatal messages of `LoadConfig` all start with this text. -/
def fatalPrefix : String := "failed to load config: "

def msgNozzleCount : String :=
  "failed to load config: NOZZLE_COUNT must not be 0 when deployed as CF application"

def msgNozzleAddrs : String :=
  "failed to load config: NOZZLE_ADDRS must contain only 1 address when deployed as a CF application"

def msgNozzleAppGUID : String :=
  "failed to load config: NOZZLE_APP_GUID cannot be empty when deployed as CF application"

/-- Go's `make([]string, 0, cap)` for a run-time `cap`: the runtime's
`makeslice` panics when `cap` is negative or larger than the greatest capacity
it allocates (`capLimit`, a property of the platform); otherwise the result is
the empty slice. -/
def makeSlice (capLimit : Nat) (cap : Int) : Option (List String) :=
  if cap < 0 ∨ (capLimit : Int) < cap then none else some []

/-- The loop of `config.go`, 73-75, started at `i` with `addrs`:
`for ; i < n; i++ { addrs = append(addrs, nozzleAddrs[0]) }`.
`none` is the index-out-of-range panic of `nozzleAddrs[0]`. Since `i < n`
whenever `i` is incremented, `i++` never overflows. -/
def expandLoop (nozzleAddrs : List String) (n : Int) (i : Int) (addrs : List String) :
    Option (List String) :=
  if i < n then
    match nozzleAddrs[0]? with
    | none => none
    | some a => expandLoop nozzleAddrs n (i + 1) (addrs ++ [a])
  else some addrs
termination_by (n - i).toNat
decreasing_by omega

/-- The body of `LoadConfig` after `envstruct.Load` succeeded with `cfg`
(`config.go`, 54-82). -/
def finishConfig (capLimit : Nat) (cfg : Config) : Outcome :=
  if cfg.VCapApplication ≠ "" then
    let cfg : Config := { cfg with LogWriter := Writer.Discard }
    if cfg.NozzleCount = 0 then Outcome.fatal msgNozzleCount
    else if cfg.NozzleAddrs.length ≠ 1 then Outcome.fatal msgNozzleAddrs
    else if cfg.NozzleAppGUID = "" then Outcome.fatal msgNozzleAppGUID
    else
      match makeSlice capLimit cfg.NozzleCount with
      | none => Outcome.panic "runtime error: makeslice: cap out of range"
      | some addrs =>
        match expandLoop cfg.NozzleAddrs cfg.NozzleCount 0 addrs with
        | none => Outcome.panic "runtime error: index out of range"
        | some addrs =>
          let cfg : Config := { cfg with NozzleAddrs := addrs }
          Outcome.ok { cfg with TLSConfig := some ⟨cfg.SkipCertVerify⟩ }
  else
    Outcome.ok { cfg with TLSConfig := some ⟨cfg.SkipCertVerify⟩ }

/-! ### go-envstruct

`envstruct.Load` visits the struct's fields in declaration order. For a field
tagged `env:"NAME"` it reads `os.Getenv("NAME")`; an empty value of a
`required` field is recorded as missing, an empty value of any other field
leaves the field as it is, and a non-empty value is converted to the field's
type and stored (a conversion error is returned at once). Fields without a tag
(`LogWriter`, `TLSConfig`) are left alone. -/

/-- The process environment as `os.Getenv` sees it: an unset variable reads as
the empty string. -/
abbrev Env := String → String

/-- The conversions of the Go standard library that go-envstruct applies to a
non-empty value, by field type: `time.ParseDuration`, `strconv.ParseUint`
(16 bits), `strconv.ParseInt`, the boolean reading and the splitting of a list
value. `none` is a conversion error. -/
structure Parsers where
  parseDuration : String → Option Int
  parseUint16 : String → Option Nat
  parseInt : String → Option Int
  parseBool : String → Option Bool
  parseStrings : String → Option (List String)

/-- One tagged field of `Config`: the variable's name, whether the tag says
`required`, and the assignment of a non-empty value to the field. -/
structure Field where
  name : String
  required : Bool
  set : Parsers → String → Config → Option Config

/-- The tagged fields of `Config` in declaration order (`config.go`, 16-36). -/
def configFields : List Field :=
  [ ⟨"UAA_ADDR", true, fun _ v c => some { c with UAAAddr := v }⟩,
    ⟨"CLIENT_ID", true, fun _ v c => some { c with ClientID := v }⟩,
    ⟨"CLIENT_SECRET", true, fun _ v c => some { c with ClientSecret := v }⟩,
    ⟨"NOZZLE_ADDRS", true,
      fun ps v c => (ps.parseStrings v).map fun x => { c with NozzleAddrs := x }⟩,
    ⟨"PORT", true, fun ps v c => (ps.parseUint16 v).map fun x => { c with Port := x }⟩,
    ⟨"SKIP_CERT_VERIFY", false,
      fun ps v c => (ps.parseBool v).map fun x => { c with SkipCertVerify := x }⟩,
    ⟨"RATE_INTERVAL", false,
      fun ps v c => (ps.parseDuration v).map fun x => { c with RateInterval := x }⟩,
    ⟨"VCAP_APPLICATION", false, fun _ v c => some { c with VCapApplication := v }⟩,
    ⟨"NOZZLE_COUNT", false,
      fun ps v c => (ps.parseInt v).map fun x => { c with NozzleCount := x }⟩,
    ⟨"NOZZLE_APP_GUID", false, fun _ v c => some { c with NozzleAppGUID := v }⟩,
    ⟨"MIN_LOG_LEVEL", false, fun _ v c => some { c with MinLogLevel := v }⟩ ]

/-- The state of a load in progress: the struct so far and the required
variables found missing. -/
structure LoadState where
  cfg : Config
  missing : List String

/-- The treatment of one field by `envstruct.Load`. -/
def loadField (ps : Parsers) (env : Env) (st : LoadState) (f : Field) :
    Except String LoadState :=
  let envVal := env f.name
  if f.required = true ∧ envVal = "" then
    Except.ok { st with missing := st.missing ++ [f.name] }
  else if envVal = "" then Except.ok st
  else
    match f.set ps envVal st.cfg with
    | none => Except.error ("cannot convert the value of " ++ f.name)
    | some cfg => Except.ok { st with cfg := cfg }

/-- The fields of `fs` loaded one after the other. -/
def loadFields (ps : Parsers) (env : Env) : List Field → LoadState → Except String LoadState
  | [], st => Except.ok st
  | f :: fs, st =>
    match loadField ps env st f with
    | Except.error e => Except.error e
    | Except.ok st => loadFields ps env fs st

/-- The function `envstruct.Load(&cfg)` in the environment `env`. -/
def envstructLoad (ps : Parsers) (env : Env) (cfg : Config) : Except String Config :=
  match loadFields ps env configFields ⟨cfg, []⟩ with
  | Except.error e => Except.error e
  | Except.ok st =>
    if st.missing = [] then Except.ok st.cfg
    else Except.error ("missing required environment variables: " ++ ", ".intercalate st.missing)

/-- LoadConfig loads the configuration settings from the current environment
(`config.go`, 42-83). `load` is `envstruct.Load` in the current environment:
it receives the defaults and returns an error text or the populated struct. -/
def LoadConfig (capLimit : Nat) (load : Config → Except String Config) : Outcome :=
  match load defaultConfig with
  | Except.error err => Outcome.fatal (fatalPrefix ++ err)
  | Except.ok cfg => finishConfig capLimit cfg

end app

/-! ## The rate store (`nozzle/internal/store`) -/

namespace store

/-- The least and the greatest `int64`. -/
def minInt64 : Int := -(2 ^ 63)

def maxInt64 : Int := 2 ^ 63 - 1

/-- The result of an `int64` operation whose exact value is `x`: Go wraps
around. -/
def wrapInt64 (x : Int) : Int := (x + 2 ^ 63) % 2 ^ 64 - 2 ^ 63

/-- Modelled from the spec: `store.Rate`, whose declaration is not part of the
sources at hand; §3: `{Timestamp int64 (unix seconds, bucket key), Count int64}`. -/
structure Rate where
  Timestamp : Int
  Count : Int
  deriving DecidableEq, Repr

/-- Modelled from the spec: `store.Rates`, "ordered sequence of Rate" (§3). -/
abbrev Rates := List Rate

/-- The error of the query API (§7). -/
inductive Error where
  | NotFound
  deriving DecidableEq, Repr

/-- Modelled from the spec: the store itself, which is not part of the sources
at hand; §3: it "owns a mapping `timestamp → Rate`", kept here as the list of
its buckets in ascending order of timestamp, and a retention window. -/
structure Store where
  buckets : List Rate
  retentionWindow : Int
  deriving DecidableEq, Repr

/-- Modelled from the spec: the store "created empty at process start" (§3). -/
def Store.new (retentionWindow : Int) : Store := ⟨[], retentionWindow⟩

/-- Modelled from the spec: the merge policy of `Ingest` (§4.1): "if no
existing entry, insert; if an entry exists, add `sample.Count` to it". The
addition is that of `int64`. -/
def merge (sample : Rate) : List Rate → List Rate
  | [] => [sample]
  | b :: bs =>
    if sample.Timestamp < b.Timestamp then sample :: b :: bs
    else if sample.Timestamp = b.Timestamp then
      { b with Count := wrapInt64 (b.Count + sample.Count) } :: bs
    else b :: merge sample bs

/-- Modelled from the spec: eviction (§4.1): "any bucket whose timestamp is
older than `now - retentionWindow` is removed"; `cutoff` is
`now - retentionWindow`. -/
def evict (cutoff : Int) (bs : List Rate) : List Rate :=
  bs.filter fun b => decide (cutoff ≤ b.Timestamp)

/-- Modelled from the spec: `Ingest(sample Rate)` at the time `now` (§4.1): a
sample below the retention window is "silently dropped" (the call "fully
no-ops", §7); otherwise it is merged, and eviction is "triggered on each
`Ingest` call". -/
def Store.Ingest (s : Store) (now : Int) (sample : store.Rate) : Store :=
  if sample.Timestamp < now - s.retentionWindow then s
  else { s with buckets := evict (now - s.retentionWindow) (merge sample s.buckets) }

/-- Modelled from the spec: `Rates() Rates` (§4.1), "a snapshot of all
currently retained buckets, ascending by timestamp". -/
def Store.Rates (s : Store) : store.Rates := s.buckets

/-- The bucket of `bs` for the timestamp `t`, if there is one. -/
def lookup (t : Int) (bs : List Rate) : Option Rate :=
  bs.find? fun b => decide (b.Timestamp = t)

/-- Modelled from the spec: `Rate(timestamp int64) (Rate, error)` (§4.1):
"returns the bucket for `timestamp`. Fails with `NotFound` when no bucket exists
for that exact timestamp". -/
def Store.Rate (s : Store) (timestamp : Int) : Except Error store.Rate :=
  match lookup timestamp s.buckets with
  | some r => Except.ok r
  | none => Except.error Error.NotFound

/-- A sequence of `Ingest` calls, each with the time at which it is made. -/
def Store.ingestAll (s : Store) (calls : List (Int × store.Rate)) : Store :=
  calls.foldl (fun s c => s.Ingest c.1 c.2) s

/-- The buckets are in strictly ascending order of timestamp. -/
def Ascending (bs : List Rate) : Prop :=
  bs.Pairwise fun a b => a.Timestamp < b.Timestamp

/-- The effect of one `Ingest` call that is not below the retention window on
the bucket for `t`: a sample for `t` starts the bucket or is added to it. -/
def step (t : Int) (o : Option Rate) (c : Int × Rate) : Option Rate :=
  if c.2.Timestamp = t then
    some ⟨t, match o with
      | none => c.2.Count
      | some r => wrapInt64 (r.Count + c.2.Count)⟩
  else o

/-- The exact sum of the counts of the samples of `calls` for the timestamp
`t`. -/
def exactSum (t : Int) (calls : List (Int × Rate)) : Int :=
  ((calls.filter fun c => decide (c.2.Timestamp = t)).map fun c => c.2.Count).sum

end store

/-! ## The web server (`nozzle/internal/web/server.go`) -/

namespace web

/-- RateStore is the interface from which the server will get rates to be
rendered via HTTP in JSON (`server.go`, 15-20). -/
structure RateStore where
  Rates : store.Rates
  Rate : Int → Except store.Error store.Rate

/-- The store of the `store` package as a `RateStore`. -/
def ofStore (s : store.Store) : RateStore := ⟨s.Rates, s.Rate⟩

/-- The two handlers that `NewServer` registers; both are backed by the store. -/
inductive Handler where
  | StateIndex
  | StateShow
  deriving DecidableEq, Repr

/-- The parts of an HTTP request that the router looks at: the method and the
path of the URL. -/
structure Request where
  Method : String
  Path : String
  deriving DecidableEq, Repr

/-- Go's `http.MethodGet`. -/
def MethodGet : String := "GET"

/-- The regular expression that matches the text `cs` and nothing else (the
`regexp.QuoteMeta` of the raw parts of a path template). -/
def literal : List Char → RegularExpression Char
  | [] => 1
  | c :: cs => RegularExpression.char c * literal cs

/-- The character class `[0-9]`. -/
def digitClass : RegularExpression Char :=
  RegularExpression.char '0' + RegularExpression.char '1' + RegularExpression.char '2'
    + RegularExpression.char '3' + RegularExpression.char '4' + RegularExpression.char '5'
    + RegularExpression.char '6' + RegularExpression.char '7' + RegularExpression.char '8'
    + RegularExpression.char '9'

/-- The pattern `[0-9]+`. -/
def digitsPattern : RegularExpression Char := digitClass * RegularExpression.star digitClass

/-- A part of a gorilla/mux path template: raw text, or a variable
`{name:pattern}`. -/
inductive TemplatePart where
  | raw (text : String)
  | var (name : String) (pattern : RegularExpression Char)

/-- The regular expression of one part of a template. -/
def TemplatePart.regexp : TemplatePart → RegularExpression Char
  | TemplatePart.raw text => literal text.data
  | TemplatePart.var _ pattern => pattern

/-- The regular expression gorilla/mux compiles a path template to: the parts
one after the other, anchored at both ends (`^...$`), so that a path matches
when the whole of it is in the expression's language. -/
def compileTemplate : List TemplatePart → RegularExpression Char
  | [] => 1
  | p :: ps => p.regexp * compileTemplate ps

/-- A route of the router: its path template, the methods it is restricted to
and its handler. -/
structure Route where
  template : List TemplatePart
  methods : List String
  handler : Handler

/-- Whether the route's path template matches the path `p`. -/
def Route.matchesPath (r : Route) (p : String) : Bool :=
  (compileTemplate r.template).rmatch p.data

/-- Whether the route matches the request: all of its matchers (path,
methods) do. -/
def Route.Match (r : Route) (req : Request) : Bool :=
  r.matchesPath req.Path && decide (req.Method ∈ r.methods)

/-- The route of `server.go`, 39-40:
`router.Handle("/state", StateIndex(store)).Methods(http.MethodGet)`. -/
def stateIndexRoute : Route :=
  ⟨[TemplatePart.raw "/state"], [MethodGet], Handler.StateIndex⟩

/-- The route of `server.go`, 42-43:
`router.Handle("/state/{timestamp:[0-9]+}", StateShow(store)).Methods(http.MethodGet)`. -/
def stateShowRoute : Route :=
  ⟨[TemplatePart.raw "/state/", TemplatePart.var "timestamp" digitsPattern], [MethodGet],
    Handler.StateShow⟩

/-- The route table of the router that `NewServer` builds (`server.go`, 37-43),
in the order of registration. -/
def routes : List Route := [stateIndexRoute, stateShowRoute]

/-- What the router does with a request: it redirects to the cleaned path,
hands the request to the handler of the first matching route, or answers by
itself (not found, method not allowed) when no route matches. -/
inductive Dispatch where
  | redirect
  | handler (h : Handler)
  | unmatched
  deriving DecidableEq, Repr

/-- The router's `ServeHTTP`: a path that is not in canonical form (`cleanPath`
changes it) is redirected; otherwise the first route that matches, in the order
of registration, gets the request. `cleanPath` is the library's path
canonicaliser. -/
def ServeHTTP (cleanPath : String → String) (rs : List Route) (req : Request) : Dispatch :=
  if cleanPath req.Path ≠ req.Path then Dispatch.redirect
  else
    match rs.find? fun r => r.Match req with
    | some r => Dispatch.handler r.handler
    | none => Dispatch.unmatched

/-- The value of the route variable `timestamp` for a path the StateShow route
matches: what follows `/state/`. -/
def timestampVar (p : String) : List Char := p.data.drop "/state/".length

/-- Whether `s` is a non-empty string of the ASCII decimal digits. -/
def isDigits (s : List Char) : Bool := !s.isEmpty && s.all Char.isDigit

/-- The number that a string of decimal digits denotes. -/
def decimalValue (s : List Char) : Nat :=
  s.foldl (fun n c => 10 * n + (c.toNat - '0'.toNat)) 0

end web

/-! ## Data for the concrete instances -/

namespace examples

open app

/-- The number a non-empty string of decimal digits denotes. -/
def decimalNat : List Char → Option Nat
  | [] => none
  | cs =>
    cs.foldl
      (fun acc c =>
        acc.bind fun n =>
          if '0' ≤ c ∧ c ≤ '9' then some (10 * n + (c.toNat - 48)) else none)
      (some 0)

/-- The fields of a comma-separated list. -/
def splitComma : List Char → List Char → List String
  | cur, [] => [String.mk cur.reverse]
  | cur, c :: cs =>
    if c = ',' then String.mk cur.reverse :: splitComma [] cs else splitComma (c :: cur) cs

/-- Conversions for the concrete instances: durations are whole seconds. -/
def parsers : Parsers :=
  { parseDuration := fun s => (decimalNat s.data).map fun n => (n : Int) * timeSecond
    parseUint16 := fun s => (decimalNat s.data).bind fun n => if n < 65536 then some n else none
    parseInt := fun s =>
      match s.data with
      | '-' :: cs => (decimalNat cs).map fun n => - (n : Int)
      | cs => (decimalNat cs).map fun n => (n : Int)
    parseBool := fun s => some (decide (s = "true" ∨ s = "1"))
    parseStrings := fun s => some (splitComma [] s.data) }

/-- The variables every environment below sets. -/
def baseEnv : Env := fun k =>
  if k = "UAA_ADDR" then "https://uaa.example" else if k = "CLIENT_ID" then "id"
  else if k = "CLIENT_SECRET" then "secret" else if k = "PORT" then "8080" else ""

/-- A platform deployment with three nozzles behind one address. -/
def platformEnv : Env := fun k =>
  if k = "NOZZLE_ADDRS" then "nozzle:8080" else if k = "VCAP_APPLICATION" then "cf-app"
  else if k = "NOZZLE_COUNT" then "3" else if k = "NOZZLE_APP_GUID" then "guid"
  else baseEnv k

/-- A platform deployment whose nozzle count is negative. -/
def negativeCountEnv : Env := fun k =>
  if k = "NOZZLE_COUNT" then "-1" else platformEnv k

/-- A deployment off the platform, with two nozzle addresses. -/
def localEnv : Env := fun k =>
  if k = "NOZZLE_ADDRS" then "a:1,b:2" else if k = "NOZZLE_COUNT" then "7" else baseEnv k

/-- What `envstruct.Load` yields in `platformEnv`. -/
def platformLoaded : Config :=
  { defaultConfig with
    UAAAddr := "https://uaa.example", ClientID := "id", ClientSecret := "secret",
    NozzleAddrs := ["nozzle:8080"], Port := 8080, VCapApplication := "cf-app",
    NozzleCount := 3, NozzleAppGUID := "guid" }

/-- What `envstruct.Load` yields in `localEnv`. -/
def localLoaded : Config :=
  { defaultConfig with
    UAAAddr := "https://uaa.example", ClientID := "id", ClientSecret := "secret",
    NozzleAddrs := ["a:1", "b:2"], Port := 8080, NozzleCount := 7 }

/-- What `envstruct.Load` yields in `negativeCountEnv`. -/
def negativeCountLoaded : Config := { platformLoaded with NozzleCount := -1 }

/-- A platform deployment whose nozzle count is -3. -/
def minusThreeEnv : Env := fun k =>
  if k = "NOZZLE_COUNT" then "-3" else platformEnv k

/-- Two samples for the timestamp 100 whose exact sum, `2 ^ 63`, is one more
than the greatest `int64`. -/
def overflowCalls : List (Int × store.Rate) :=
  [(100, ⟨100, 2 ^ 63 - 1⟩), (100, ⟨100, 1⟩)]

/-- The calls of the concrete scenario of the specification, made at the times
of their samples. -/
def scenarioCalls : List (Int × store.Rate) :=
  [(100, ⟨100, 3⟩), (100, ⟨100, 2⟩), (101, ⟨101, 1⟩)]

end examples

/-! ## Properties of `LoadConfig` -/

namespace app

theorem expandLoop_cons (a : String) (rest : List String) (n : Int) :
    ∀ (k : Nat) (i : Int) (addrs : List String), (n - i).toNat = k →
      expandLoop (a :: rest) n i addrs = some (addrs ++ List.replicate k a) := by
  intro k
  induction k with
  | zero =>
    intro i addrs hk
    rw [expandLoop]
    have : ¬ i < n := by omega
    simp [this]
  | succ k ih =>
    intro i addrs hk
    rw [expandLoop]
    have hlt : i < n := by omega
    have hk2 : (n - (i + 1)).toNat = k := by omega
    simp [hlt, ih (i + 1) (addrs ++ [a]) hk2, List.replicate_succ]

theorem expandLoop_nil (n i : Int) (addrs : List String) :
    expandLoop [] n i addrs = if i < n then none else some addrs := by
  rw [expandLoop]
  simp

theorem finishConfig_offPlatform (capLimit : Nat) (cfg : Config)
    (hv : cfg.VCapApplication = "") :
    finishConfig capLimit cfg = Outcome.ok { cfg with TLSConfig := some ⟨cfg.SkipCertVerify⟩ } := by
  simp [finishConfig, hv]

/-- On the platform, with a positive count that the runtime can allocate, one
address and a GUID, `LoadConfig` returns the expanded configuration. -/
theorem finishConfig_platform_ok (capLimit : Nat) (cfg : Config) (a : String)
    (hv : cfg.VCapApplication ≠ "") (hpos : 0 < cfg.NozzleCount)
    (hcap : cfg.NozzleCount ≤ capLimit) (haddr : cfg.NozzleAddrs = [a])
    (hguid : cfg.NozzleAppGUID ≠ "") :
    finishConfig capLimit cfg =
      Outcome.ok { cfg with
        LogWriter := Writer.Discard
        NozzleAddrs := List.replicate cfg.NozzleCount.toNat a
        TLSConfig := some ⟨cfg.SkipCertVerify⟩ } := by
  have h0 : cfg.NozzleCount ≠ 0 := by omega
  have hm : makeSlice capLimit cfg.NozzleCount = some [] := by
    simp [makeSlice]; omega
  have hl := expandLoop_cons a [] cfg.NozzleCount cfg.NozzleCount.toNat 0 [] (by simp)
  simp [finishConfig, hv, h0, haddr, hguid, hm, hl]

/-- On the platform, a negative count that passed the validation makes the
allocation of the address slice panic. -/
theorem finishConfig_platform_negative (capLimit : Nat) (cfg : Config)
    (hv : cfg.VCapApplication ≠ "") (hneg : cfg.NozzleCount < 0)
    (haddr : cfg.NozzleAddrs.length = 1) (hguid : cfg.NozzleAppGUID ≠ "") :
    finishConfig capLimit cfg = Outcome.panic "runtime error: makeslice: cap out of range" := by
  have h0 : cfg.NozzleCount ≠ 0 := by omega
  have hm : makeSlice capLimit cfg.NozzleCount = none := by
    simp [makeSlice]; intro h; omega
  simp [finishConfig, hv, h0, haddr, hguid, hm]

/-- On the platform, the validation ends the process exactly when the count is
0, the addresses are not exactly one, or the GUID is empty. -/
theorem finishConfig_fatal_iff (capLimit : Nat) (cfg : Config)
    (hv : cfg.VCapApplication ≠ "") :
    (∃ msg, finishConfig capLimit cfg = Outcome.fatal msg) ↔
      (cfg.NozzleCount = 0 ∨ cfg.NozzleAddrs.length ≠ 1 ∨ cfg.NozzleAppGUID = "") := by
  unfold finishConfig
  simp only [hv, ne_eq, not_false_eq_true, if_true]
  by_cases h0 : cfg.NozzleCount = 0
  · simp [h0]
  by_cases h1 : cfg.NozzleAddrs.length = 1
  swap
  · simp [h0, h1]
  by_cases h2 : cfg.NozzleAppGUID = ""
  · simp [h0, h1, h2]
  simp only [h0, h1, h2, if_false, not_true_eq_false, or_self, iff_false, not_exists]
  intro msg
  cases makeSlice capLimit cfg.NozzleCount with
  | none => simp
  | some addrs =>
    simp only
    cases expandLoop cfg.NozzleAddrs cfg.NozzleCount 0 addrs with
    | none => simp
    | some addrs2 => simp

/-- What a normal return on the platform tells about the loaded struct. -/
theorem finishConfig_platform_inv (capLimit : Nat) (cfg out : Config)
    (hv : cfg.VCapApplication ≠ "") (hret : finishConfig capLimit cfg = Outcome.ok out) :
    0 < cfg.NozzleCount ∧ cfg.NozzleCount ≤ capLimit ∧ cfg.NozzleAppGUID ≠ "" ∧
      ∃ a, cfg.NozzleAddrs = [a] ∧
        out = { cfg with
          LogWriter := Writer.Discard
          NozzleAddrs := List.replicate cfg.NozzleCount.toNat a
          TLSConfig := some ⟨cfg.SkipCertVerify⟩ } := by
  have hnf : ¬ (cfg.NozzleCount = 0 ∨ cfg.NozzleAddrs.length ≠ 1 ∨ cfg.NozzleAppGUID = "") := by
    rw [← finishConfig_fatal_iff capLimit cfg hv, hret]
    simp
  push_neg at hnf
  obtain ⟨h0, h1, h2⟩ := hnf
  obtain ⟨a, ha⟩ := List.length_eq_one.mp h1
  by_cases hneg : cfg.NozzleCount < 0
  · rw [finishConfig_platform_negative capLimit cfg hv hneg h1 h2] at hret
    exact absurd hret (by simp)
  have hpos : 0 < cfg.NozzleCount := by omega
  by_cases hcap : cfg.NozzleCount ≤ capLimit
  · rw [finishConfig_platform_ok capLimit cfg a hv hpos hcap ha h2] at hret
    refine ⟨hpos, hcap, h2, a, ha, ?_⟩
    exact (Outcome.ok.inj hret).symm
  · have hm : makeSlice capLimit cfg.NozzleCount = none := by
      simp [makeSlice]; intro _; omega
    simp [finishConfig, hv, h0, h1, h2, hm] at hret

theorem finishConfig_keeps (capLimit : Nat) (cfg out : Config)
    (hret : finishConfig capLimit cfg = Outcome.ok out) :
    out.RateInterval = cfg.RateInterval ∧ out.SkipCertVerify = cfg.SkipCertVerify ∧
      out.MinLogLevel = cfg.MinLogLevel ∧ out.NozzleCount = cfg.NozzleCount ∧
      out.TLSConfig = some ⟨cfg.SkipCertVerify⟩ := by
  by_cases hv : cfg.VCapApplication = ""
  · rw [finishConfig_offPlatform capLimit cfg hv] at hret
    cases hret
    simp
  · obtain ⟨_, _, _, a, _, hout⟩ := finishConfig_platform_inv capLimit cfg out hv hret
    subst hout
    simp

theorem LoadConfig_ok_inv (capLimit : Nat) (load : Config → Except String Config) (cfg : Config)
    (hret : LoadConfig capLimit load = Outcome.ok cfg) :
    ∃ loaded, load defaultConfig = Except.ok loaded ∧ finishConfig capLimit loaded = Outcome.ok cfg := by
  unfold LoadConfig at hret
  cases h : load defaultConfig with
  | error e => rw [h] at hret; simp at hret
  | ok loaded => rw [h] at hret; exact ⟨loaded, rfl, hret⟩

theorem LoadConfig_of_load (capLimit : Nat) (load : Config → Except String Config)
    (loaded : Config) (hload : load defaultConfig = Except.ok loaded) :
    LoadConfig capLimit load = finishConfig capLimit loaded := by
  simp [LoadConfig, hload]

/-! ### go-envstruct leaves the fields of unset variables alone -/

theorem loadField_preserves {α : Type} (π : Config → α) (ps : Parsers) (env : Env)
    (st st2 : LoadState) (f : Field)
    (hf : env f.name = "" ∨ ∀ v c c2, f.set ps v c = some c2 → π c2 = π c)
    (h : loadField ps env st f = Except.ok st2) : π st2.cfg = π st.cfg := by
  unfold loadField at h
  simp only at h
  split at h
  · cases h; rfl
  · split at h
    · cases h; rfl
    · rename_i hne
      rcases hf with hf | hf
      · exact absurd hf hne
      · split at h
        · simp at h
        · rename_i c2 hset
          cases h
          exact hf _ _ _ hset

theorem loadFields_preserves {α : Type} (π : Config → α) (ps : Parsers) (env : Env) :
    ∀ (fs : List Field) (st st2 : LoadState),
      (∀ f ∈ fs, env f.name = "" ∨ ∀ v c c2, f.set ps v c = some c2 → π c2 = π c) →
      loadFields ps env fs st = Except.ok st2 → π st2.cfg = π st.cfg := by
  intro fs
  induction fs with
  | nil =>
    intro st st2 _ h
    simp [loadFields] at h
    rw [h]
  | cons f fs ih =>
    intro st st2 hfs h
    unfold loadFields at h
    cases hf : loadField ps env st f with
    | error e => rw [hf] at h; simp at h
    | ok st1 =>
      rw [hf] at h
      have h1 := loadField_preserves π ps env st st1 f (hfs f (List.mem_cons_self _ _)) hf
      have h2 := ih st1 st2 (fun g hg => hfs g (List.mem_cons_of_mem _ hg)) h
      rw [h2, h1]

theorem envstructLoad_ok_inv (ps : Parsers) (env : Env) (cfg loaded : Config)
    (h : envstructLoad ps env cfg = Except.ok loaded) :
    ∃ st, loadFields ps env configFields ⟨cfg, []⟩ = Except.ok st ∧ st.cfg = loaded := by
  unfold envstructLoad at h
  cases hl : loadFields ps env configFields ⟨cfg, []⟩ with
  | error e => rw [hl] at h; simp at h
  | ok st =>
    rw [hl] at h
    simp only at h
    split at h
    · cases h; exact ⟨st, rfl, rfl⟩
    · simp at h

theorem envstructLoad_RateInterval (ps : Parsers) (env : Env) (cfg loaded : Config)
    (hunset : env "RATE_INTERVAL" = "") (h : envstructLoad ps env cfg = Except.ok loaded) :
    loaded.RateInterval = cfg.RateInterval := by
  obtain ⟨st, hst, rfl⟩ := envstructLoad_ok_inv ps env cfg loaded h
  refine loadFields_preserves (fun c => c.RateInterval) ps env configFields _ st ?_ hst
  intro f hf
  simp only [configFields, List.mem_cons, List.mem_singleton, List.not_mem_nil, or_false] at hf
  rcases hf with rfl | rfl | rfl | rfl | rfl | rfl | rfl | rfl | rfl | rfl | rfl <;>
    first
    | (left; exact hunset)
    | (right; intro v c c2 hset; simp only [Option.map_eq_some', Option.some.injEq] at hset
       first
       | (subst hset; rfl)
       | (obtain ⟨x, _, rfl⟩ := hset; rfl))

theorem envstructLoad_SkipCertVerify (ps : Parsers) (env : Env) (cfg loaded : Config)
    (hunset : env "SKIP_CERT_VERIFY" = "") (h : envstructLoad ps env cfg = Except.ok loaded) :
    loaded.SkipCertVerify = cfg.SkipCertVerify := by
  obtain ⟨st, hst, rfl⟩ := envstructLoad_ok_inv ps env cfg loaded h
  refine loadFields_preserves (fun c => c.SkipCertVerify) ps env configFields _ st ?_ hst
  intro f hf
  simp only [configFields, List.mem_cons, List.mem_singleton, List.not_mem_nil, or_false] at hf
  rcases hf with rfl | rfl | rfl | rfl | rfl | rfl | rfl | rfl | rfl | rfl | rfl <;>
    first
    | (left; exact hunset)
    | (right; intro v c c2 hset; simp only [Option.map_eq_some', Option.some.injEq] at hset
       first
       | (subst hset; rfl)
       | (obtain ⟨x, _, rfl⟩ := hset; rfl))

theorem envstructLoad_MinLogLevel (ps : Parsers) (env : Env) (cfg loaded : Config)
    (hunset : env "MIN_LOG_LEVEL" = "") (h : envstructLoad ps env cfg = Except.ok loaded) :
    loaded.MinLogLevel = cfg.MinLogLevel := by
  obtain ⟨st, hst, rfl⟩ := envstructLoad_ok_inv ps env cfg loaded h
  refine loadFields_preserves (fun c => c.MinLogLevel) ps env configFields _ st ?_ hst
  intro f hf
  simp only [configFields, List.mem_cons, List.mem_singleton, List.not_mem_nil, or_false] at hf
  rcases hf with rfl | rfl | rfl | rfl | rfl | rfl | rfl | rfl | rfl | rfl | rfl <;>
    first
    | (left; exact hunset)
    | (right; intro v c c2 hset; simp only [Option.map_eq_some', Option.some.injEq] at hset
       first
       | (subst hset; rfl)
       | (obtain ⟨x, _, rfl⟩ := hset; rfl))

theorem loadFields_append (ps : Parsers) (env : Env) (fs1 fs2 : List Field) :
    ∀ st : LoadState, loadFields ps env (fs1 ++ fs2) st =
      match loadFields ps env fs1 st with
      | Except.error e => Except.error e
      | Except.ok st1 => loadFields ps env fs2 st1 := by
  induction fs1 with
  | nil => intro st; simp [loadFields]
  | cons f fs ih =>
    intro st
    simp only [List.cons_append, loadFields]
    cases loadField ps env st f with
    | error e => rfl
    | ok st1 => exact ih st1

/-- The loaded `VCapApplication` is the value of `VCAP_APPLICATION`. -/
theorem envstructLoad_VCapApplication (ps : Parsers) (env : Env) (loaded : Config)
    (h : envstructLoad ps env defaultConfig = Except.ok loaded) :
    loaded.VCapApplication = env "VCAP_APPLICATION" := by
  obtain ⟨st, hst, rfl⟩ := envstructLoad_ok_inv ps env defaultConfig loaded h
  have hsplit : configFields = configFields.take 7 ++ (configFields.drop 7).take 1 ++
      configFields.drop 8 := by rfl
  rw [hsplit, loadFields_append, loadFields_append] at hst
  cases h1 : loadFields ps env (configFields.take 7) ⟨defaultConfig, []⟩ with
  | error e => rw [h1] at hst; simp at hst
  | ok st1 =>
    rw [h1] at hst
    simp only at hst
    have p1 : st1.cfg.VCapApplication = "" := by
      have := loadFields_preserves (fun c => c.VCapApplication) ps env _ _ st1 ?_ h1
      · simpa [defaultConfig, zeroConfig] using this
      · intro f hf
        simp only [configFields, List.take, List.mem_cons, List.not_mem_nil, or_false] at hf
        right
        rcases hf with rfl | rfl | rfl | rfl | rfl | rfl | rfl <;>
          (intro v c c2 hset; simp only [Option.map_eq_some', Option.some.injEq] at hset
           first
           | (subst hset; rfl)
           | (obtain ⟨x, _, rfl⟩ := hset; rfl))
    cases h2 : loadFields ps env ((configFields.drop 7).take 1) st1 with
    | error e => rw [h2] at hst; simp at hst
    | ok st2 =>
      rw [h2] at hst
      simp only at hst
      have p3 : st.cfg.VCapApplication = st2.cfg.VCapApplication := by
        refine loadFields_preserves (fun c => c.VCapApplication) ps env _ _ st ?_ hst
        intro f hf
        simp only [configFields, List.drop, List.mem_cons, List.not_mem_nil, or_false] at hf
        right
        rcases hf with rfl | rfl | rfl <;>
          (intro v c c2 hset; simp only [Option.map_eq_some', Option.some.injEq] at hset
           first
           | (subst hset; rfl)
           | (obtain ⟨x, _, rfl⟩ := hset; rfl))
      rw [p3]
      simp only [configFields, List.drop, List.take, loadFields, loadField] at h2
      by_cases he : env "VCAP_APPLICATION" = ""
      · simp [he] at h2
        rw [← h2, p1, he]
      · simp [he] at h2
        rw [← h2]

/-! ### The claims about `LoadConfig` -/

/-- C1. On the platform (the loaded `VCapApplication` is non-empty), whenever
`LoadConfig` returns a `Config`, its `NozzleAddrs` has exactly `NozzleCount`
elements, and every one of them is the single address that was loaded from
`NOZZLE_ADDRS`: that address replicated `NozzleCount` times. -/
theorem LoadConfig_platform_addrs (capLimit : Nat) (load : Config → Except String Config)
    (loaded cfg : Config) (hload : load defaultConfig = Except.ok loaded)
    (hv : loaded.VCapApplication ≠ "")
    (hret : LoadConfig capLimit load = Outcome.ok cfg) :
    (cfg.NozzleAddrs.length : Int) = cfg.NozzleCount ∧
      cfg.NozzleCount = loaded.NozzleCount ∧
      ∃ a, loaded.NozzleAddrs = [a] ∧ (∀ x ∈ cfg.NozzleAddrs, x = a) ∧
        cfg.NozzleAddrs = List.replicate cfg.NozzleCount.toNat a := by
  rw [LoadConfig_of_load capLimit load loaded hload] at hret
  obtain ⟨hpos, _, _, a, ha, hout⟩ := finishConfig_platform_inv capLimit loaded cfg hv hret
  subst hout
  refine ⟨?_, rfl, a, ha, ?_, rfl⟩
  · simp only [List.length_replicate]
    omega
  · intro x hx
    exact List.eq_of_mem_replicate hx

theorem LoadConfig_platform_addrs_witness :
    envstructLoad examples.parsers examples.platformEnv defaultConfig
        = Except.ok examples.platformLoaded ∧
      ∃ cfg, LoadConfig 1024 (envstructLoad examples.parsers examples.platformEnv)
          = Outcome.ok cfg ∧
        (cfg.NozzleAddrs.length : Int) = 3 ∧
        cfg.NozzleAddrs = ["nozzle:8080", "nozzle:8080", "nozzle:8080"] := by
  have hload : envstructLoad examples.parsers examples.platformEnv defaultConfig
      = Except.ok examples.platformLoaded := rfl
  have hv : examples.platformLoaded.VCapApplication ≠ "" := by decide
  have hret : LoadConfig 1024 (envstructLoad examples.parsers examples.platformEnv)
      = Outcome.ok { examples.platformLoaded with
          LogWriter := Writer.Discard
          NozzleAddrs := List.replicate 3 "nozzle:8080"
          TLSConfig := some ⟨false⟩ } := by
    rw [LoadConfig_of_load _ _ _ hload,
      finishConfig_platform_ok 1024 examples.platformLoaded "nozzle:8080" hv (by decide)
        (by decide) rfl (by decide)]
    rfl
  obtain ⟨hlen, hcount, a, ha, _, hrep⟩ :=
    LoadConfig_platform_addrs 1024 _ examples.platformLoaded _ hload hv hret
  exact ⟨hload, _, hret, by decide, by decide⟩

/-- C3. Off the platform (the loaded `VCapApplication` is empty), `LoadConfig`
returns a `Config` without any validation, whatever `NozzleCount` and
`NozzleAppGUID` are, and the returned `NozzleAddrs` is the loaded list itself;
only `TLSConfig` is set on top of the loaded struct. -/
theorem LoadConfig_offPlatform_addrs (capLimit : Nat) (load : Config → Except String Config)
    (loaded : Config) (hload : load defaultConfig = Except.ok loaded)
    (hv : loaded.VCapApplication = "") :
    ∃ cfg, LoadConfig capLimit load = Outcome.ok cfg ∧
      cfg.NozzleAddrs = loaded.NozzleAddrs ∧
      cfg = { loaded with TLSConfig := some ⟨loaded.SkipCertVerify⟩ } := by
  rw [LoadConfig_of_load capLimit load loaded hload, finishConfig_offPlatform capLimit loaded hv]
  exact ⟨_, rfl, rfl, rfl⟩

theorem LoadConfig_offPlatform_addrs_witness :
    examples.localEnv "VCAP_APPLICATION" = "" ∧
      ∃ cfg, LoadConfig 0 (envstructLoad examples.parsers examples.localEnv) = Outcome.ok cfg ∧
        cfg.NozzleAddrs = ["a:1", "b:2"] ∧ cfg.NozzleCount = 7 ∧ cfg.NozzleAppGUID = "" := by
  have hload : envstructLoad examples.parsers examples.localEnv defaultConfig
      = Except.ok examples.localLoaded := rfl
  obtain ⟨cfg, hret, haddrs, hcfg⟩ :=
    LoadConfig_offPlatform_addrs 0 _ examples.localLoaded hload rfl
  refine ⟨rfl, cfg, hret, haddrs, ?_, ?_⟩
  · rw [hcfg]; rfl
  · rw [hcfg]; rfl

/-- C6. Whenever `LoadConfig` returns a `Config` in an environment that does
not set `RATE_INTERVAL`, the returned `RateInterval` is one minute, that is 60
seconds; likewise `SkipCertVerify` is false when `SKIP_CERT_VERIFY` is not set
and `MinLogLevel` is "info" when `MIN_LOG_LEVEL` is not set. -/
theorem LoadConfig_defaults (capLimit : Nat) (ps : Parsers) (env : Env) (cfg : Config)
    (hret : LoadConfig capLimit (envstructLoad ps env) = Outcome.ok cfg) :
    (env "RATE_INTERVAL" = "" →
        cfg.RateInterval = timeMinute ∧ cfg.RateInterval = 60 * timeSecond) ∧
      (env "SKIP_CERT_VERIFY" = "" → cfg.SkipCertVerify = false) ∧
      (env "MIN_LOG_LEVEL" = "" → cfg.MinLogLevel = "info") := by
  obtain ⟨loaded, hload, hfin⟩ := LoadConfig_ok_inv capLimit _ cfg hret
  obtain ⟨hr, hs, hm, _, _⟩ := finishConfig_keeps capLimit loaded cfg hfin
  refine ⟨fun h => ?_, fun h => ?_, fun h => ?_⟩
  · rw [hr, envstructLoad_RateInterval ps env _ loaded h hload]
    exact ⟨rfl, rfl⟩
  · rw [hs, envstructLoad_SkipCertVerify ps env _ loaded h hload]
    rfl
  · rw [hm, envstructLoad_MinLogLevel ps env _ loaded h hload]
    rfl

theorem LoadConfig_defaults_witness :
    examples.platformEnv "RATE_INTERVAL" = "" ∧
      ∃ cfg, LoadConfig 1024 (envstructLoad examples.parsers examples.platformEnv)
          = Outcome.ok cfg ∧
        cfg.RateInterval = 60000000000 ∧ cfg.SkipCertVerify = false ∧
        cfg.MinLogLevel = "info" := by
  have hload : envstructLoad examples.parsers examples.platformEnv defaultConfig
      = Except.ok examples.platformLoaded := rfl
  have hret : LoadConfig 1024 (envstructLoad examples.parsers examples.platformEnv)
      = Outcome.ok { examples.platformLoaded with
          LogWriter := Writer.Discard
          NozzleAddrs := List.replicate 3 "nozzle:8080"
          TLSConfig := some ⟨false⟩ } := by
    rw [LoadConfig_of_load _ _ _ hload,
      finishConfig_platform_ok 1024 examples.platformLoaded "nozzle:8080" (by decide)
        (by decide) (by decide) rfl (by decide)]
    rfl
  obtain ⟨h1, h2, h3⟩ := LoadConfig_defaults 1024 _ _ _ hret
  exact ⟨rfl, _, hret, (h1 rfl).1, h2 rfl, h3 rfl⟩

/-- C7. Every `Config` that `LoadConfig` returns, on the platform or off it,
has a `TLSConfig` (it is not nil) whose `InsecureSkipVerify` is the loaded
`SkipCertVerify`, which is also the returned `SkipCertVerify`; it is false when
the environment does not set `SKIP_CERT_VERIFY`. -/
theorem LoadConfig_TLSConfig (capLimit : Nat) (load : Config → Except String Config)
    (cfg : Config) (hret : LoadConfig capLimit load = Outcome.ok cfg) :
    ∃ loaded, load defaultConfig = Except.ok loaded ∧
      cfg.TLSConfig = some ⟨loaded.SkipCertVerify⟩ ∧
      cfg.SkipCertVerify = loaded.SkipCertVerify ∧
      ∀ (ps : Parsers) (env : Env), load = envstructLoad ps env →
        env "SKIP_CERT_VERIFY" = "" → cfg.TLSConfig = some ⟨false⟩ := by
  obtain ⟨loaded, hload, hfin⟩ := LoadConfig_ok_inv capLimit _ cfg hret
  obtain ⟨_, hs, _, _, ht⟩ := finishConfig_keeps capLimit loaded cfg hfin
  refine ⟨loaded, hload, ht, hs, ?_⟩
  intro ps env hl hunset
  subst hl
  rw [ht, envstructLoad_SkipCertVerify ps env _ loaded hunset hload]
  rfl

theorem LoadConfig_TLSConfig_witness :
    ∃ cfg, LoadConfig 0 (envstructLoad examples.parsers examples.localEnv) = Outcome.ok cfg ∧
      cfg.TLSConfig = some ⟨false⟩ := by
  have hload : envstructLoad examples.parsers examples.localEnv defaultConfig
      = Except.ok examples.localLoaded := rfl
  have hret : LoadConfig 0 (envstructLoad examples.parsers examples.localEnv)
      = Outcome.ok { examples.localLoaded with TLSConfig := some ⟨false⟩ } := by
    rw [LoadConfig_of_load _ _ _ hload, finishConfig_offPlatform 0 _ rfl]
    rfl
  obtain ⟨loaded, _, _, _, h⟩ := LoadConfig_TLSConfig 0 _ _ hret
  exact ⟨_, hret, h _ _ rfl rfl⟩

/-- C2, at the environment `negativeCountEnv` (`NOZZLE_COUNT=-1` on the
platform): `envstruct.Load` succeeds, none of the three validation conditions
holds, and yet `LoadConfig` neither ends with a fatal error nor returns a
`Config`: it panics in `make`. -/
theorem LoadConfig_negativeCount_panics :
    envstructLoad examples.parsers examples.negativeCountEnv defaultConfig
        = Except.ok examples.negativeCountLoaded ∧
      examples.negativeCountLoaded.VCapApplication ≠ "" ∧
      ¬ (examples.negativeCountLoaded.NozzleCount = 0 ∨
          examples.negativeCountLoaded.NozzleAddrs.length ≠ 1 ∨
          examples.negativeCountLoaded.NozzleAppGUID = "") ∧
      ∀ capLimit : Nat,
        LoadConfig capLimit (envstructLoad examples.parsers examples.negativeCountEnv)
          = Outcome.panic "runtime error: makeslice: cap out of range" := by
  have hload : envstructLoad examples.parsers examples.negativeCountEnv defaultConfig
      = Except.ok examples.negativeCountLoaded := rfl
  refine ⟨hload, by decide, by decide, fun capLimit => ?_⟩
  rw [LoadConfig_of_load _ _ _ hload]
  exact finishConfig_platform_negative capLimit _ (by decide) (by decide) (by decide) (by decide)

/-- C10, at the environment `minusThreeEnv` (`NOZZLE_COUNT=-3` on the
platform): the three validation checks pass, the allocation
`make([]string, 0, -3)` panics whatever the platform's limit is, and
`LoadConfig` does not return. -/
theorem LoadConfig_expansion_panics :
    ∀ capLimit : Nat,
      makeSlice capLimit (-3) = none ∧
      (∀ msg, LoadConfig capLimit (envstructLoad examples.parsers examples.minusThreeEnv)
          ≠ Outcome.fatal msg) ∧
      (∀ cfg, LoadConfig capLimit (envstructLoad examples.parsers examples.minusThreeEnv)
          ≠ Outcome.ok cfg) ∧
      LoadConfig capLimit (envstructLoad examples.parsers examples.minusThreeEnv)
          = Outcome.panic "runtime error: makeslice: cap out of range" := by
  intro capLimit
  have hload : envstructLoad examples.parsers examples.minusThreeEnv defaultConfig
      = Except.ok { examples.platformLoaded with NozzleCount := -3 } := rfl
  have hp : LoadConfig capLimit (envstructLoad examples.parsers examples.minusThreeEnv)
      = Outcome.panic "runtime error: makeslice: cap out of range" := by
    rw [LoadConfig_of_load _ _ _ hload]
    exact finishConfig_platform_negative capLimit _ (by decide) (by decide) (by decide)
      (by decide)
  refine ⟨?_, ?_, ?_, hp⟩
  · simp [makeSlice]
  · intro msg; rw [hp]; simp
  · intro cfg; rw [hp]; simp

end app

/-! ## Properties of the route table -/

namespace web

open RegularExpression

theorem literal_rmatch_iff (cs x : List Char) : (literal cs).rmatch x ↔ x = cs := by
  induction cs generalizing x with
  | nil => simp [literal, one_rmatch_iff]
  | cons c cs ih =>
    simp only [literal]
    rw [mul_rmatch_iff]
    constructor
    · rintro ⟨t, u, rfl, ht, hu⟩
      rw [char_rmatch_iff] at ht
      rw [ih] at hu
      subst ht hu
      rfl
    · rintro rfl
      exact ⟨[c], cs, rfl, (char_rmatch_iff c [c]).mpr rfl, (ih cs).mpr rfl⟩

theorem isDigit_iff_mem (c : Char) :
    c.isDigit = true ↔ c ∈ ['0', '1', '2', '3', '4', '5', '6', '7', '8', '9'] := by
  constructor
  · intro h
    have h1 : 48 ≤ c.toNat ∧ c.toNat ≤ 57 := by
      simp only [Char.isDigit, Bool.and_eq_true, decide_eq_true_eq, UInt32.le_def] at h
      exact h
    have h2 : c = Char.ofNat c.toNat := (Char.ofNat_toNat c).symm
    obtain ⟨hlo, hhi⟩ := h1
    generalize c.toNat = n at h2 hlo hhi
    subst h2
    interval_cases n <;> decide
  · intro h
    simp only [List.mem_cons, List.mem_singleton, List.not_mem_nil, or_false] at h
    rcases h with rfl | rfl | rfl | rfl | rfl | rfl | rfl | rfl | rfl | rfl <;> decide

theorem digitClass_rmatch_iff (x : List Char) :
    digitClass.rmatch x ↔ ∃ c, x = [c] ∧ c.isDigit = true := by
  simp only [digitClass, add_rmatch_iff, char_rmatch_iff, isDigit_iff_mem, List.mem_cons,
    List.mem_singleton, List.not_mem_nil, or_false]
  constructor
  · intro h
    rcases h with ((((((((h | h) | h) | h) | h) | h) | h) | h) | h) | h <;>
      exact ⟨_, h, by simp⟩
  · rintro ⟨c, rfl, h⟩
    rcases h with rfl | rfl | rfl | rfl | rfl | rfl | rfl | rfl | rfl | rfl <;> simp

theorem star_digitClass_rmatch_iff (x : List Char) :
    (star digitClass).rmatch x ↔ ∀ c ∈ x, c.isDigit = true := by
  rw [star_rmatch_iff]
  constructor
  · rintro ⟨S, rfl, hS⟩ c hc
    rw [List.mem_flatten] at hc
    obtain ⟨t, ht, hct⟩ := hc
    obtain ⟨d, rfl, hd⟩ := (digitClass_rmatch_iff t).mp (hS t ht).2
    rw [List.mem_singleton] at hct
    rw [hct]
    exact hd
  · intro h
    refine ⟨x.map fun c => [c], ?_, ?_⟩
    · induction x with
      | nil => rfl
      | cons c cs ih =>
        simp only [List.map_cons, List.flatten_cons, List.singleton_append, List.cons.injEq,
          true_and]
        exact ih fun d hd => h d (List.mem_cons_of_mem _ hd)
    · intro t ht
      rw [List.mem_map] at ht
      obtain ⟨c, hc, rfl⟩ := ht
      exact ⟨by simp, (digitClass_rmatch_iff [c]).mpr ⟨c, rfl, h c hc⟩⟩

theorem isDigits_iff (s : List Char) :
    isDigits s = true ↔ s ≠ [] ∧ ∀ c ∈ s, c.isDigit = true := by
  cases s <;> simp [isDigits]

theorem digitsPattern_rmatch_iff (x : List Char) :
    digitsPattern.rmatch x ↔ isDigits x = true := by
  rw [isDigits_iff]
  simp only [digitsPattern]
  rw [mul_rmatch_iff]
  constructor
  · rintro ⟨t, u, rfl, ht, hu⟩
    obtain ⟨c, rfl, hc⟩ := (digitClass_rmatch_iff t).mp ht
    rw [star_digitClass_rmatch_iff] at hu
    refine ⟨by simp, ?_⟩
    intro d hd
    simp only [List.singleton_append, List.mem_cons] at hd
    rcases hd with rfl | hd
    · exact hc
    · exact hu d hd
  · rintro ⟨hne, h⟩
    cases x with
    | nil => exact absurd rfl hne
    | cons c cs =>
      refine ⟨[c], cs, rfl, (digitClass_rmatch_iff [c]).mpr ⟨c, rfl, h c (by simp)⟩, ?_⟩
      exact (star_digitClass_rmatch_iff cs).mpr fun d hd => h d (List.mem_cons_of_mem _ hd)

theorem stateIndexRoute_matchesPath_iff (p : String) :
    stateIndexRoute.matchesPath p = true ↔ p = "/state" := by
  simp only [Route.matchesPath, stateIndexRoute, compileTemplate, TemplatePart.regexp]
  rw [mul_rmatch_iff]
  constructor
  · rintro ⟨t, u, h, ht, hu⟩
    rw [literal_rmatch_iff] at ht
    rw [one_rmatch_iff] at hu
    subst ht hu
    apply String.ext
    simpa using h
  · rintro rfl
    exact ⟨"/state".data, [], by simp, (literal_rmatch_iff _ _).mpr rfl, (one_rmatch_iff _).mpr rfl⟩

theorem stateShowRoute_matchesPath_iff (p : String) :
    stateShowRoute.matchesPath p = true ↔
      ∃ ds : List Char, isDigits ds = true ∧ p = "/state/" ++ String.mk ds := by
  simp only [Route.matchesPath, stateShowRoute, compileTemplate, TemplatePart.regexp]
  rw [mul_rmatch_iff]
  constructor
  · rintro ⟨t, u, h, ht, hu⟩
    rw [literal_rmatch_iff] at ht
    rw [mul_rmatch_iff] at hu
    obtain ⟨v, w, rfl, hv, hw⟩ := hu
    rw [one_rmatch_iff] at hw
    rw [digitsPattern_rmatch_iff] at hv
    subst ht hw
    refine ⟨v, hv, ?_⟩
    apply String.ext
    simpa using h
  · rintro ⟨ds, hds, rfl⟩
    refine ⟨"/state/".data, ds, by simp, (literal_rmatch_iff _ _).mpr rfl, ?_⟩
    rw [mul_rmatch_iff]
    exact ⟨ds, [], by simp, (digitsPattern_rmatch_iff ds).mpr hds, (one_rmatch_iff _).mpr rfl⟩

theorem routes_find (req : Request) :
    (routes.find? fun r => r.Match req) =
      if stateIndexRoute.Match req = true then some stateIndexRoute
      else if stateShowRoute.Match req = true then some stateShowRoute
      else none := by
  simp only [routes, List.find?]
  cases stateIndexRoute.Match req <;> cases stateShowRoute.Match req <;> rfl

theorem Route_Match_get (r : Route) (req : Request) (hm : r.methods = [MethodGet]) :
    r.Match req = true ↔ req.Method = "GET" ∧ r.matchesPath req.Path = true := by
  simp [Route.Match, hm, MethodGet, and_comm]

/-- The dispatch of the router of `NewServer`, case by case. -/
theorem ServeHTTP_routes (cleanPath : String → String) (req : Request) :
    ServeHTTP cleanPath routes req =
      if cleanPath req.Path ≠ req.Path then Dispatch.redirect
      else if req.Method = "GET" ∧ req.Path = "/state" then Dispatch.handler Handler.StateIndex
      else if req.Method = "GET" ∧ stateShowRoute.matchesPath req.Path = true then
        Dispatch.handler Handler.StateShow
      else Dispatch.unmatched := by
  unfold ServeHTTP
  rw [routes_find]
  by_cases hc : cleanPath req.Path ≠ req.Path
  · simp [hc]
  simp only [hc, if_false]
  have e1 : stateIndexRoute.Match req = true ↔ (req.Method = "GET" ∧ req.Path = "/state") := by
    rw [Route_Match_get stateIndexRoute req rfl, stateIndexRoute_matchesPath_iff]
  have e2 := Route_Match_get stateShowRoute req rfl
  by_cases h1 : stateIndexRoute.Match req = true
  · rw [if_pos h1, if_pos (e1.mp h1)]; rfl
  · rw [if_neg h1, if_neg (fun h => h1 (e1.mpr h))]
    by_cases h2 : stateShowRoute.Match req = true
    · rw [if_pos h2, if_pos (e2.mp h2)]; rfl
    · rw [if_neg h2, if_neg (fun h => h2 (e2.mpr h))]

theorem decimalValue_foldl_lt (s : List Char) (hs : ∀ c ∈ s, c.isDigit = true) :
    ∀ n : Nat, s.foldl (fun n c => 10 * n + (c.toNat - '0'.toNat)) n < (n + 1) * 10 ^ s.length := by
  induction s with
  | nil => intro n; simp
  | cons c cs ih =>
    intro n
    have hc : c.toNat - '0'.toNat ≤ 9 := by
      have h := hs c (List.mem_cons_self _ _)
      have h1 : 48 ≤ c.toNat ∧ c.toNat ≤ 57 := by
        simp only [Char.isDigit, Bool.and_eq_true, decide_eq_true_eq, UInt32.le_def] at h
        exact h
      have h0 : '0'.toNat = 48 := rfl
      omega
    have h := ih (fun d hd => hs d (List.mem_cons_of_mem _ hd)) (10 * n + (c.toNat - '0'.toNat))
    simp only [List.foldl_cons, List.length_cons]
    calc List.foldl (fun n c => 10 * n + (c.toNat - '0'.toNat)) (10 * n + (c.toNat - '0'.toNat)) cs
        < (10 * n + (c.toNat - '0'.toNat) + 1) * 10 ^ cs.length := h
      _ ≤ ((n + 1) * 10) * 10 ^ cs.length := by
          apply Nat.mul_le_mul_right
          omega
      _ = (n + 1) * 10 ^ (cs.length + 1) := by
          rw [pow_succ]; ring

theorem decimalValue_lt (s : List Char) (hs : ∀ c ∈ s, c.isDigit = true) :
    decimalValue s < 10 ^ s.length := by
  have h := decimalValue_foldl_lt s hs 0
  simpa [decimalValue] using h

/-! ### The claims about the route table -/

/-- C4. The route registered for `StateShow` matches a path exactly when the
path is `/state/` followed by a non-empty string of the ASCII decimal digits;
so a path whose last segment is empty or has a character that is not a digit
is never dispatched to the `StateShow` handler. -/
theorem stateShowRoute_pattern (p : String) :
    (stateShowRoute.matchesPath p = true ↔
        ∃ ds : List Char, ds ≠ [] ∧ (∀ c ∈ ds, c.isDigit = true) ∧
          p = "/state/" ++ String.mk ds) ∧
      ∀ (cleanPath : String → String) (method : String),
        ServeHTTP cleanPath routes ⟨method, p⟩ = Dispatch.handler Handler.StateShow →
          ∃ ds : List Char, ds ≠ [] ∧ (∀ c ∈ ds, c.isDigit = true) ∧
            p = "/state/" ++ String.mk ds := by
  have hiff : stateShowRoute.matchesPath p = true ↔
      ∃ ds : List Char, ds ≠ [] ∧ (∀ c ∈ ds, c.isDigit = true) ∧
        p = "/state/" ++ String.mk ds := by
    rw [stateShowRoute_matchesPath_iff]
    constructor
    · rintro ⟨ds, hds, rfl⟩
      exact ⟨ds, ((isDigits_iff ds).mp hds).1, ((isDigits_iff ds).mp hds).2, rfl⟩
    · rintro ⟨ds, hne, hall, rfl⟩
      exact ⟨ds, (isDigits_iff ds).mpr ⟨hne, hall⟩, rfl⟩
  refine ⟨hiff, ?_⟩
  intro cleanPath method h
  rw [ServeHTTP_routes] at h
  apply hiff.mp
  simp only at h
  split at h
  · simp at h
  · split at h
    · simp at h
    · split at h
      · rename_i h3; exact h3.2
      · simp at h

/-- Paths the `StateShow` route matches and paths it rejects: an empty last
segment, a sign, a letter, a dot, a space, a further slash. -/
theorem stateShowRoute_examples :
    stateShowRoute.matchesPath "/state/100" = true ∧
      stateShowRoute.matchesPath "/state/007" = true ∧
      stateShowRoute.matchesPath "/state/" = false ∧
      stateShowRoute.matchesPath "/state/-1" = false ∧
      stateShowRoute.matchesPath "/state/+1" = false ∧
      stateShowRoute.matchesPath "/state/12a" = false ∧
      stateShowRoute.matchesPath "/state/1.5" = false ∧
      stateShowRoute.matchesPath "/state/ 1" = false ∧
      stateShowRoute.matchesPath "/state/1/2" = false ∧
      stateShowRoute.matchesPath "/state/1/" = false ∧
      stateShowRoute.matchesPath "/state" = false ∧
      stateShowRoute.matchesPath "/states/1" = false := by
  decide

/-- C5. The route table of `NewServer` is exactly two routes, both restricted
to GET. For every request, the router dispatches to `StateIndex` only if the
method is GET and the path is exactly `/state`, to `StateShow` only if the
method is GET and the path matches `/state/{timestamp:[0-9]+}`, and to no
handler at all for any other method or path; a request of one of the two forms
whose path is in canonical form does reach its handler. -/
theorem routes_two_get_routes (cleanPath : String → String) (req : Request) :
    (routes.map fun r => (r.methods, r.handler)) =
        [(["GET"], Handler.StateIndex), (["GET"], Handler.StateShow)] ∧
      (ServeHTTP cleanPath routes req = Dispatch.handler Handler.StateIndex →
        req.Method = "GET" ∧ req.Path = "/state") ∧
      (ServeHTTP cleanPath routes req = Dispatch.handler Handler.StateShow →
        req.Method = "GET" ∧ stateShowRoute.matchesPath req.Path = true) ∧
      (¬ (req.Method = "GET" ∧
            (req.Path = "/state" ∨ stateShowRoute.matchesPath req.Path = true)) →
        ∀ h, ServeHTTP cleanPath routes req ≠ Dispatch.handler h) ∧
      (cleanPath req.Path = req.Path → req.Method = "GET" → req.Path = "/state" →
        ServeHTTP cleanPath routes req = Dispatch.handler Handler.StateIndex) ∧
      (cleanPath req.Path = req.Path → req.Method = "GET" →
        stateShowRoute.matchesPath req.Path = true →
        ServeHTTP cleanPath routes req = Dispatch.handler Handler.StateShow) := by
  rw [ServeHTTP_routes]
  refine ⟨rfl, ?_, ?_, ?_, ?_, ?_⟩
  · intro h
    split at h
    · simp at h
    · split at h
      · assumption
      · split at h <;> simp at h
  · intro h
    split at h
    · simp at h
    · split at h
      · simp at h
      · split at h
        · assumption
        · simp at h
  · intro hn h
    have h1 : ¬ (req.Method = "GET" ∧ req.Path = "/state") := fun x => hn ⟨x.1, Or.inl x.2⟩
    have h2 : ¬ (req.Method = "GET" ∧ stateShowRoute.matchesPath req.Path = true) :=
      fun x => hn ⟨x.1, Or.inr x.2⟩
    rw [if_neg h1, if_neg h2]
    split <;> simp
  · intro hc hm hp
    rw [if_neg (by simp [hc]), if_pos ⟨hm, hp⟩]
  · intro hc hm hp
    have h1 : ¬ (req.Method = "GET" ∧ req.Path = "/state") := by
      rintro ⟨_, h⟩
      rw [h] at hp
      exact absurd hp (by decide)
    rw [if_neg (by simp [hc]), if_neg h1, if_pos ⟨hm, hp⟩]

/-- The dispatch of some concrete requests by the router of `NewServer`, for
a canonicaliser that leaves these paths alone. -/
theorem ServeHTTP_examples :
    ServeHTTP id routes ⟨"GET", "/state"⟩ = Dispatch.handler Handler.StateIndex ∧
      ServeHTTP id routes ⟨"GET", "/state/100"⟩ = Dispatch.handler Handler.StateShow ∧
      ServeHTTP id routes ⟨"POST", "/state"⟩ = Dispatch.unmatched ∧
      ServeHTTP id routes ⟨"DELETE", "/state/100"⟩ = Dispatch.unmatched ∧
      ServeHTTP id routes ⟨"get", "/state"⟩ = Dispatch.unmatched ∧
      ServeHTTP id routes ⟨"GET", "/state/"⟩ = Dispatch.unmatched ∧
      ServeHTTP id routes ⟨"GET", "/"⟩ = Dispatch.unmatched ∧
      ServeHTTP id routes ⟨"GET", "/state/abc"⟩ = Dispatch.unmatched := by
  decide

/-- C9, refuted as stated: the segment `9223372036854775808` (2^63) is
accepted by the `StateShow` route, for a GET request the router dispatches it
to the handler, and its value is greater than the greatest `int64`. -/
theorem stateShowRoute_accepts_beyond_int64 :
    stateShowRoute.matchesPath ("/state/" ++ String.mk "9223372036854775808".data) = true ∧
      ServeHTTP id routes ⟨"GET", "/state/9223372036854775808"⟩
        = Dispatch.handler Handler.StateShow ∧
      timestampVar "/state/9223372036854775808" = "9223372036854775808".data ∧
      ¬ ((0 : Int) ≤ decimalValue "9223372036854775808".data ∧
          (decimalValue "9223372036854775808".data : Int) ≤ 2 ^ 63 - 1) := by
  refine ⟨by decide, by decide, by decide, ?_⟩
  have h : decimalValue "9223372036854775808".data = 9223372036854775808 := by decide
  rw [h]
  norm_num

/-- C9, amended. Every path segment `s` that the `StateShow` route pattern
accepts is a non-empty string of decimal digits: it denotes a non-negative
integer below `10 ^ length s`, which is representable as an `int64` whenever
`s` has at most 18 digits (and whenever its value is at most `2 ^ 63 - 1`
otherwise). -/
theorem stateShowRoute_segment_value (s : List Char)
    (hacc : stateShowRoute.matchesPath ("/state/" ++ String.mk s) = true) :
    isDigits s = true ∧ timestampVar ("/state/" ++ String.mk s) = s ∧
      (0 : Int) ≤ decimalValue s ∧ decimalValue s < 10 ^ s.length ∧
      (s.length ≤ 18 →
        store.minInt64 ≤ (decimalValue s : Int) ∧ (decimalValue s : Int) ≤ store.maxInt64) := by
  have hd : isDigits s = true := by
    obtain ⟨ds, hds, heq⟩ := (stateShowRoute_matchesPath_iff _).mp hacc
    have : s = ds := by
      have h2 := congrArg String.data heq
      simpa using h2
    rw [this]
    exact hds
  have hlt := decimalValue_lt s ((isDigits_iff s).mp hd).2
  refine ⟨hd, ?_, Int.natCast_nonneg _, hlt, ?_⟩
  · simp only [timestampVar, String.data_append]
    have : "/state/".data.length = "/state/".length := rfl
    rw [← this, List.drop_left]
  · intro hlen
    have h18 : 10 ^ s.length ≤ 10 ^ 18 := Nat.pow_le_pow_right (by norm_num) hlen
    have hv : decimalValue s < 10 ^ 18 := lt_of_lt_of_le hlt h18
    simp only [store.minInt64, store.maxInt64]
    constructor
    · have : (0 : Int) ≤ decimalValue s := Int.natCast_nonneg _
      omega
    · have : (decimalValue s : Int) < 10 ^ 18 := by exact_mod_cast hv
      omega

theorem stateShowRoute_segment_value_witness :
    stateShowRoute.matchesPath ("/state/" ++ String.mk "1700000000".data) = true ∧
      decimalValue "1700000000".data = 1700000000 ∧
      ((decimalValue "1700000000".data : Nat) : Int) ≤ store.maxInt64 := by
  have hacc : stateShowRoute.matchesPath ("/state/" ++ String.mk "1700000000".data) = true := by
    decide
  have h := stateShowRoute_segment_value "1700000000".data hacc
  exact ⟨hacc, by decide, (h.2.2.2.2 (by decide)).2⟩

end web

/-! ## Properties of the rate store -/

namespace store

theorem wrapInt64_of_range (x : Int) (h : minInt64 ≤ x ∧ x ≤ maxInt64) : wrapInt64 x = x := by
  simp only [wrapInt64, minInt64, maxInt64] at *
  omega

theorem wrapInt64_range (x : Int) : minInt64 ≤ wrapInt64 x ∧ wrapInt64 x ≤ maxInt64 := by
  simp only [wrapInt64, minInt64, maxInt64]
  omega

theorem wrapInt64_add_wrap (a b : Int) : wrapInt64 (wrapInt64 a + b) = wrapInt64 (a + b) := by
  simp only [wrapInt64]
  omega

theorem lookup_timestamp (t : Int) (bs : List Rate) (r : Rate) (h : lookup t bs = some r) :
    r.Timestamp = t := by
  have := List.find?_some h
  simpa using this

theorem lookup_none_of_lt (t : Int) (bs : List Rate) (h : ∀ b ∈ bs, t < b.Timestamp) :
    lookup t bs = none := by
  simp only [lookup, List.find?_eq_none, decide_eq_true_eq]
  intro b hb heq
  have := h b hb
  omega

theorem merge_mem (sample : Rate) (bs : List Rate) :
    ∀ x ∈ merge sample bs, x.Timestamp = sample.Timestamp ∨ ∃ b ∈ bs, x.Timestamp = b.Timestamp := by
  induction bs with
  | nil =>
    intro x hx
    simp only [merge, List.mem_singleton] at hx
    left; rw [hx]
  | cons b bs ih =>
    intro x hx
    simp only [merge] at hx
    split at hx
    · rcases List.mem_cons.mp hx with rfl | hx
      · left; rfl
      · right; exact ⟨x, hx, rfl⟩
    · split at hx
      · rcases List.mem_cons.mp hx with rfl | hx
        · right; exact ⟨b, List.mem_cons_self _ _, rfl⟩
        · right; exact ⟨x, List.mem_cons_of_mem _ hx, rfl⟩
      · rcases List.mem_cons.mp hx with rfl | hx
        · right; exact ⟨x, List.mem_cons_self _ _, rfl⟩
        · rcases ih x hx with h | ⟨y, hy, h⟩
          · left; exact h
          · right; exact ⟨y, List.mem_cons_of_mem _ hy, h⟩

theorem merge_ascending (sample : Rate) (bs : List Rate) (h : Ascending bs) :
    Ascending (merge sample bs) := by
  induction bs with
  | nil => simp [merge, Ascending]
  | cons b bs ih =>
    have hb := List.pairwise_cons.mp h
    simp only [merge]
    split
    · rename_i hlt
      refine List.pairwise_cons.mpr ⟨?_, h⟩
      intro x hx
      rcases List.mem_cons.mp hx with rfl | hx
      · exact hlt
      · exact lt_trans hlt (hb.1 x hx)
    · split
      · exact List.pairwise_cons.mpr ⟨hb.1, hb.2⟩
      · rename_i h1 h2
        refine List.pairwise_cons.mpr ⟨?_, ih hb.2⟩
        intro x hx
        rcases merge_mem sample bs x hx with hx | ⟨y, hy, hx⟩
        · rw [hx]; omega
        · rw [hx]; exact hb.1 y hy

theorem evict_ascending (cutoff : Int) (bs : List Rate) (h : Ascending bs) :
    Ascending (evict cutoff bs) :=
  List.Pairwise.filter _ h

theorem lookup_evict (cutoff t : Int) (bs : List Rate) (h : cutoff ≤ t) :
    lookup t (evict cutoff bs) = lookup t bs := by
  induction bs with
  | nil => rfl
  | cons b bs ih =>
    simp only [evict, lookup] at ih ⊢
    by_cases hb : b.Timestamp = t
    · have hc : cutoff ≤ b.Timestamp := by omega
      simp [List.filter_cons, hb, h]
    · by_cases hc : cutoff ≤ b.Timestamp
      · simp [List.filter_cons, hc, hb, ih]
      · simp [List.filter_cons, hc, hb, ih]

theorem lookup_merge_ne (t : Int) (sample : Rate) (bs : List Rate)
    (hne : sample.Timestamp ≠ t) : lookup t (merge sample bs) = lookup t bs := by
  induction bs with
  | nil => simp [merge, lookup, hne]
  | cons b bs ih =>
    simp only [merge]
    split
    · simp [lookup, hne]
    · split
      · rename_i heq
        have hb : b.Timestamp ≠ t := by omega
        simp [lookup, hb]
      · by_cases hb : b.Timestamp = t
        · simp [lookup, hb]
        · simp only [lookup] at ih
          simp [lookup, hb, ih]

theorem lookup_merge_eq (t c : Int) (bs : List Rate) (h : Ascending bs) :
    lookup t (merge ⟨t, c⟩ bs) =
      some ⟨t, match lookup t bs with
        | none => c
        | some r => wrapInt64 (r.Count + c)⟩ := by
  induction bs with
  | nil => simp [merge, lookup]
  | cons b bs ih =>
    have hb := List.pairwise_cons.mp h
    simp only [merge]
    split
    · rename_i hlt
      have hnone : lookup t (b :: bs) = none := by
        apply lookup_none_of_lt
        intro x hx
        rcases List.mem_cons.mp hx with rfl | hx
        · exact hlt
        · exact lt_trans hlt (hb.1 x hx)
      rw [hnone]
      simp [lookup]
    · split
      · rename_i heq
        have hl : lookup t (b :: bs) = some b := by simp [lookup, heq]
        rw [hl]
        simp [lookup, heq]
      · rename_i h1 h2
        have hbt : b.Timestamp ≠ t := fun h => h2 h.symm
        have e1 : lookup t (b :: merge ⟨t, c⟩ bs) = lookup t (merge ⟨t, c⟩ bs) := by
          simp [lookup, hbt]
        have e2 : lookup t (b :: bs) = lookup t bs := by simp [lookup, hbt]
        rw [e1, e2]
        exact ih hb.2

theorem Ingest_ascending (s : Store) (now : Int) (sample : Rate) (h : Ascending s.buckets) :
    Ascending (s.Ingest now sample).buckets := by
  unfold Store.Ingest
  split
  · exact h
  · exact evict_ascending _ _ (merge_ascending _ _ h)

theorem lookup_Ingest (t : Int) (s : Store) (c : Int × Rate) (h : Ascending s.buckets)
    (hfresh : c.1 - s.retentionWindow ≤ t) :
    lookup t (s.Ingest c.1 c.2).buckets = step t (lookup t s.buckets) c := by
  unfold Store.Ingest step
  by_cases heq : c.2.Timestamp = t
  · have hnd : ¬ c.2.Timestamp < c.1 - s.retentionWindow := by omega
    rw [if_neg hnd, if_pos heq]
    simp only
    rw [lookup_evict _ _ _ hfresh]
    have hc : c.2 = ⟨t, c.2.Count⟩ := by
      cases hc2 : c.2 with
      | mk ts cnt => rw [hc2] at heq; simp at heq; simp [heq]
    rw [hc]
    exact lookup_merge_eq t c.2.Count s.buckets h
  · rw [if_neg heq]
    split
    · rfl
    · simp only
      rw [lookup_evict _ _ _ hfresh, lookup_merge_ne _ _ _ heq]

theorem ingestAll_retentionWindow (calls : List (Int × Rate)) :
    ∀ s : Store, (s.ingestAll calls).retentionWindow = s.retentionWindow := by
  induction calls with
  | nil => intro s; rfl
  | cons c cs ih =>
    intro s
    simp only [Store.ingestAll, List.foldl_cons] at ih ⊢
    rw [ih]
    unfold Store.Ingest
    split <;> rfl

theorem lookup_ingestAll (t : Int) (calls : List (Int × Rate)) :
    ∀ s : Store, Ascending s.buckets → (∀ c ∈ calls, c.1 - s.retentionWindow ≤ t) →
      lookup t (s.ingestAll calls).buckets = calls.foldl (step t) (lookup t s.buckets) := by
  induction calls with
  | nil => intro s _ _; rfl
  | cons c cs ih =>
    intro s hs hfresh
    simp only [Store.ingestAll, List.foldl_cons] at ih ⊢
    have hw : (s.Ingest c.1 c.2).retentionWindow = s.retentionWindow := by
      unfold Store.Ingest
      split <;> rfl
    rw [ih (s.Ingest c.1 c.2) (Ingest_ascending s c.1 c.2 hs)
      (fun d hd => by rw [hw]; exact hfresh d (List.mem_cons_of_mem _ hd))]
    rw [lookup_Ingest t s c hs (hfresh c (List.mem_cons_self _ _))]

theorem exactSum_cons (t : Int) (c : Int × Rate) (cs : List (Int × Rate)) :
    exactSum t (c :: cs) = (if c.2.Timestamp = t then c.2.Count else 0) + exactSum t cs := by
  unfold exactSum
  by_cases h : c.2.Timestamp = t
  · simp [List.filter_cons, h]
  · simp [List.filter_cons, h]

theorem foldl_step_some (t : Int) (calls : List (Int × Rate)) :
    ∀ a : Int, calls.foldl (step t) (some ⟨t, a⟩) =
      some ⟨t, if (calls.filter fun c => decide (c.2.Timestamp = t)) = [] then a
        else wrapInt64 (a + exactSum t calls)⟩ := by
  induction calls with
  | nil => intro a; simp
  | cons c cs ih =>
    intro a
    simp only [List.foldl_cons]
    by_cases h : c.2.Timestamp = t
    · have hs : step t (some ⟨t, a⟩) c = some ⟨t, wrapInt64 (a + c.2.Count)⟩ := by
        simp [step, h]
      rw [hs, ih, exactSum_cons, if_pos h]
      have hne : (List.filter (fun c => decide (c.2.Timestamp = t)) (c :: cs)) ≠ [] := by
        simp [List.filter_cons, h]
      rw [if_neg hne]
      split
      · rename_i hnil
        have h0 : exactSum t cs = 0 := by simp [exactSum, hnil]
        rw [h0, add_zero]
      · rw [wrapInt64_add_wrap, add_assoc]
    · have hs : step t (some ⟨t, a⟩) c = some ⟨t, a⟩ := by simp [step, h]
      rw [hs, ih, exactSum_cons, if_neg h, zero_add]
      have hf : List.filter (fun c => decide (c.2.Timestamp = t)) (c :: cs)
          = List.filter (fun c => decide (c.2.Timestamp = t)) cs := by
        simp [List.filter_cons, h]
      rw [hf]

theorem foldl_step_none (t : Int) (calls : List (Int × Rate))
    (hsome : ∃ c ∈ calls, c.2.Timestamp = t)
    (hrange : ∀ c ∈ calls, minInt64 ≤ c.2.Count ∧ c.2.Count ≤ maxInt64) :
    calls.foldl (step t) none = some ⟨t, wrapInt64 (exactSum t calls)⟩ := by
  induction calls with
  | nil => obtain ⟨c, hc, _⟩ := hsome; simp at hc
  | cons c cs ih =>
    simp only [List.foldl_cons]
    by_cases h : c.2.Timestamp = t
    · have hs : step t none c = some ⟨t, c.2.Count⟩ := by simp [step, h]
      rw [hs, foldl_step_some, exactSum_cons, if_pos h]
      split
      · rename_i hnil
        have h0 : exactSum t cs = 0 := by simp [exactSum, hnil]
        rw [h0, add_zero, wrapInt64_of_range _ (hrange c (List.mem_cons_self _ _))]
      · rfl
    · have hs : step t none c = none := by simp [step, h]
      rw [hs, exactSum_cons, if_neg h, zero_add]
      apply ih
      · obtain ⟨d, hd, hdt⟩ := hsome
        rcases List.mem_cons.mp hd with rfl | hd
        · exact absurd hdt h
        · exact ⟨d, hd, hdt⟩
      · exact fun d hd => hrange d (List.mem_cons_of_mem _ hd)

theorem exactSum_perm (t : Int) (calls calls2 : List (Int × Rate)) (hp : calls2.Perm calls) :
    exactSum t calls2 = exactSum t calls := by
  unfold exactSum
  exact List.Perm.sum_eq ((hp.filter _).map _)

theorem Rate_ingestAll (w t : Int) (calls : List (Int × Rate))
    (hsome : ∃ c ∈ calls, c.2.Timestamp = t)
    (hrange : ∀ c ∈ calls, minInt64 ≤ c.2.Count ∧ c.2.Count ≤ maxInt64)
    (hfresh : ∀ c ∈ calls, c.1 - w ≤ t) :
    ((Store.new w).ingestAll calls).Rate t = Except.ok ⟨t, wrapInt64 (exactSum t calls)⟩ := by
  have h := lookup_ingestAll t calls (Store.new w) (by simp [Store.new, Ascending])
    (by simpa [Store.new] using hfresh)
  have h0 : lookup t (Store.new w).buckets = none := rfl
  rw [h0, foldl_step_none t calls hsome hrange] at h
  simp [Store.Rate, h]

end store

namespace web

open store

/-- C8, amended. For every sequence of `Ingest` calls (each made at some time
`now`) that has a sample for the timestamp `t`, with `t` never below the
retention window (`now - retentionWindow ≤ t` at every call, so that `t` is
neither dropped nor evicted): `Rate(t)`, through the `RateStore` interface,
returns the bucket `t` whose count is the `int64` (wrapping) sum of the counts
of all the samples for `t`; it is their exact sum whenever that sum fits an
`int64`; and every permutation of the calls gives the same answer. Samples for
other timestamps may be interleaved. -/
theorem Rate_is_sum_of_ingested (w t : Int) (calls : List (Int × Rate))
    (hsome : ∃ c ∈ calls, c.2.Timestamp = t)
    (hrange : ∀ c ∈ calls, minInt64 ≤ c.2.Count ∧ c.2.Count ≤ maxInt64)
    (hfresh : ∀ c ∈ calls, c.1 - w ≤ t) :
    (ofStore ((Store.new w).ingestAll calls)).Rate t
        = Except.ok ⟨t, wrapInt64 (exactSum t calls)⟩ ∧
      (minInt64 ≤ exactSum t calls ∧ exactSum t calls ≤ maxInt64 →
        (ofStore ((Store.new w).ingestAll calls)).Rate t = Except.ok ⟨t, exactSum t calls⟩) ∧
      ∀ calls2 : List (Int × Rate), calls2.Perm calls →
        (ofStore ((Store.new w).ingestAll calls2)).Rate t
          = (ofStore ((Store.new w).ingestAll calls)).Rate t := by
  have h1 := Rate_ingestAll w t calls hsome hrange hfresh
  refine ⟨h1, ?_, ?_⟩
  · intro hr
    simp only [ofStore] at h1 ⊢
    rw [h1, wrapInt64_of_range _ hr]
  · intro calls2 hp
    have hsome2 : ∃ c ∈ calls2, c.2.Timestamp = t := by
      obtain ⟨c, hc, hct⟩ := hsome
      exact ⟨c, hp.mem_iff.mpr hc, hct⟩
    have h2 := Rate_ingestAll w t calls2 hsome2
      (fun c hc => hrange c (hp.mem_iff.mp hc)) (fun c hc => hfresh c (hp.mem_iff.mp hc))
    simp only [ofStore] at h1 ⊢
    rw [h1, h2, exactSum_perm t calls calls2 hp]

theorem Rate_is_sum_of_ingested_witness :
    (ofStore ((Store.new 60).ingestAll examples.scenarioCalls)).Rate 100
        = Except.ok ⟨100, 5⟩ ∧
      (ofStore ((Store.new 60).ingestAll
          [(101, ⟨101, 1⟩), (100, ⟨100, 2⟩), (100, ⟨100, 3⟩)])).Rate 100
        = Except.ok ⟨100, 5⟩ := by
  have h := Rate_is_sum_of_ingested 60 100 examples.scenarioCalls
    ⟨(100, ⟨100, 3⟩), by decide, rfl⟩ (by decide) (by decide)
  have hs : exactSum 100 examples.scenarioCalls = 5 := by decide
  have hr : minInt64 ≤ exactSum 100 examples.scenarioCalls ∧
      exactSum 100 examples.scenarioCalls ≤ maxInt64 := by decide
  have h1 := h.2.1 hr
  rw [hs] at h1
  refine ⟨h1, ?_⟩
  rw [h.2.2 _ (by decide), h1]

/-- The concrete scenario of the specification: after `Ingest({100,3})`,
`Ingest({100,2})`, `Ingest({101,1})`, `Rates()` is `[{100,5},{101,1}]`,
`Rate(100)` is `{100,5}` and `Rate(999)` is `NotFound`. -/
theorem scenario_Rates :
    (ofStore ((Store.new 60).ingestAll examples.scenarioCalls)).Rates
        = [⟨100, 5⟩, ⟨101, 1⟩] ∧
      (ofStore ((Store.new 60).ingestAll examples.scenarioCalls)).Rate 100
        = Except.ok ⟨100, 5⟩ ∧
      (ofStore ((Store.new 60).ingestAll examples.scenarioCalls)).Rate 999
        = Except.error Error.NotFound := by
  refine ⟨by decide, ?_, ?_⟩ <;> rfl

/-- C8, refuted as stated: the two calls of `overflowCalls` share the
timestamp 100, their counts are `int64` values and 100 is never below the
retention window, yet the count of the bucket that `Rate(100)` returns is
`-2 ^ 63`, not the sum `2 ^ 63` of the ingested counts. -/
theorem Rate_differs_from_sum_on_overflow :
    (∀ c ∈ examples.overflowCalls, c.2.Timestamp = 100) ∧
      (∀ c ∈ examples.overflowCalls, minInt64 ≤ c.2.Count ∧ c.2.Count ≤ maxInt64) ∧
      (∀ c ∈ examples.overflowCalls, c.1 - 60 ≤ 100) ∧
      exactSum 100 examples.overflowCalls = 2 ^ 63 ∧
      (ofStore ((Store.new 60).ingestAll examples.overflowCalls)).Rate 100
        = Except.ok ⟨100, -(2 ^ 63)⟩ ∧
      ¬ ((ofStore ((Store.new 60).ingestAll examples.overflowCalls)).Rate 100
        = Except.ok ⟨100, exactSum 100 examples.overflowCalls⟩) := by
  have hr : (ofStore ((Store.new 60).ingestAll examples.overflowCalls)).Rate 100
      = Except.ok ⟨100, -(2 ^ 63)⟩ := rfl
  have hs : exactSum 100 examples.overflowCalls = 2 ^ 63 := by decide
  refine ⟨by decide, by decide, by decide, hs, hr, ?_⟩
  rw [hr, hs]
  intro h
  have h2 := congrArg (fun r : store.Rate => r.Count) (Except.ok.inj h)
  revert h2
  decide

end web
